import Mathlib

/-!
Shallow embedding of `src/keygen.py` (yume license key generator/validator).

Bytes are modelled as `List Nat` (each element a value in [0,256)); Python
`int.from_bytes(_, 'big')` becomes `beInt`; `hashlib.sha256` and `hmac.new`
are modelled by an executable SHA-256 / HMAC-SHA256 implementation (the
standard algorithms the library implements), checked below against the
published test vectors.  Randomness (`secrets.token_bytes`) and the clock
(`time.time()`) are inputs of the embedded functions.
-/

namespace Yume

/-- Big-endian interpretation of a byte list, `int.from_bytes(bs, 'big')`. -/
def beInt (bs : List Nat) : Nat := bs.foldl (fun a b => a * 256 + b) 0

/-- `k`-byte big-endian serialization of `v` (Python `struct.pack` style). -/
def beBytesFixed : Nat → Nat → List Nat
  | 0, _ => []
  | k + 1, v => beBytesFixed k (v / 256) ++ [v % 256]

/-- Little-endian base-256 digits of `v`, with explicit fuel (`fuel ≥ v`). -/
def leDigitsFuel : Nat → Nat → List Nat
  | 0, _ => []
  | fuel + 1, v => if v = 0 then [] else v % 256 :: leDigitsFuel fuel (v / 256)

/-- Minimal big-endian byte serialization of `v`, as produced by
`bytes.fromhex(format(v, 'x')  zero-padded to even length)`; `0 ↦ [0]`. -/
def natToBeBytes (v : Nat) : List Nat :=
  if v = 0 then [0] else (leDigitsFuel v v).reverse

/-! ### SHA-256 (the algorithm implemented by `hashlib.sha256`) -/

/-- Reduce modulo 2^32. -/
def w32 (n : Nat) : Nat := n % 4294967296

/-- Rotate a 32-bit word right by `n`. -/
def rotr (n x : Nat) : Nat := w32 ((x >>> n) ||| (x <<< (32 - n)))

def chNat (x y z : Nat) : Nat := (x &&& y) ^^^ ((x ^^^ 0xffffffff) &&& z)

def majNat (x y z : Nat) : Nat := (x &&& y) ^^^ (x &&& z) ^^^ (y &&& z)

def bsig0 (x : Nat) : Nat := rotr 2 x ^^^ rotr 13 x ^^^ rotr 22 x

def bsig1 (x : Nat) : Nat := rotr 6 x ^^^ rotr 11 x ^^^ rotr 25 x

def ssig0 (x : Nat) : Nat := rotr 7 x ^^^ rotr 18 x ^^^ (x >>> 3)

def ssig1 (x : Nat) : Nat := rotr 17 x ^^^ rotr 19 x ^^^ (x >>> 10)

/-- The 64 SHA-256 round constants. -/
def Ksha : List Nat :=
  [1116352408, 1899447441, 3049323471, 3921009573,
   961987163, 1508970993, 2453635748, 2870763221,
   3624381080, 310598401, 607225278, 1426881987,
   1925078388, 2162078206, 2614888103, 3248222580,
   3835390401, 4022224774, 264347078, 604807628,
   770255983, 1249150122, 1555081692, 1996064986,
   2554220882, 2821834349, 2952996808, 3210313671,
   3336571891, 3584528711, 113926993, 338241895,
   666307205, 773529912, 1294757372, 1396182291,
   1695183700, 1986661051, 2177026350, 2456956037,
   2730485921, 2820302411, 3259730800, 3345764771,
   3516065817, 3600352804, 4094571909, 275423344,
   430227734, 506948616, 659060556, 883997877,
   958139571, 1322822218, 1537002063, 1747873779,
   1955562222, 2024104815, 2227730452, 2361852424,
   2428436474, 2756734187, 3204031479, 3329325298]

/-- SHA-256 working state: eight 32-bit words. -/
structure Hash8 where
  a : Nat
  b : Nat
  c : Nat
  d : Nat
  e : Nat
  f : Nat
  g : Nat
  h : Nat
deriving Repr, DecidableEq

/-- SHA-256 initial hash value. -/
def sha256Init : Hash8 :=
  ⟨1779033703, 3144134277, 1013904242, 2773480762,
   1359893119, 2600822924, 528734635, 1541459225⟩

/-- Split a list into chunks of `k` elements (fuel-driven; callers pass the
list length as fuel). -/
def chunksFuel (k : Nat) : Nat → List Nat → List (List Nat)
  | 0, _ => []
  | _, [] => []
  | fuel + 1, l => l.take k :: chunksFuel k fuel (l.drop k)

/-- SHA-256 message padding: append `0x80`, zeros to 56 mod 64, and the
8-byte big-endian bit length. -/
def padMsg (msg : List Nat) : List Nat :=
  msg ++ 128 :: List.replicate ((119 - msg.length % 64) % 64) 0
      ++ beBytesFixed 8 (8 * msg.length)

/-- The 16 initial 32-bit message-schedule words of one 64-byte block. -/
def msgWords (block : List Nat) : List Nat :=
  (chunksFuel 4 block.length block).map beInt

/-- Extend the reversed message schedule by `n` further words. -/
def extendW : Nat → List Nat → List Nat
  | 0, ws => ws
  | n + 1, ws =>
      extendW n
        (w32 (ssig1 (ws.getD 1 0) + ws.getD 6 0 + ssig0 (ws.getD 14 0)
              + ws.getD 15 0) :: ws)

/-- The full 64-word message schedule of a block, in order. -/
def scheduleW (block : List Nat) : List Nat :=
  (extendW 48 (msgWords block).reverse).reverse

/-- One SHA-256 round. -/
def roundStep (s : Hash8) (k w : Nat) : Hash8 :=
  let t1 := w32 (s.h + bsig1 s.e + chNat s.e s.f s.g + k + w)
  let t2 := w32 (bsig0 s.a + majNat s.a s.b s.c)
  ⟨w32 (t1 + t2), s.a, s.b, s.c, w32 (s.d + t1), s.e, s.f, s.g⟩

/-- SHA-256 compression of one 64-byte block. -/
def compressBlock (s0 : Hash8) (block : List Nat) : Hash8 :=
  let s := (Ksha.zip (scheduleW block)).foldl
    (fun st p => roundStep st p.1 p.2) s0
  ⟨w32 (s0.a + s.a), w32 (s0.b + s.b), w32 (s0.c + s.c), w32 (s0.d + s.d),
   w32 (s0.e + s.e), w32 (s0.f + s.f), w32 (s0.g + s.g), w32 (s0.h + s.h)⟩

/-- SHA-256 digest (32 bytes) of a byte list. -/
def sha256 (msg : List Nat) : List Nat :=
  let padded := padMsg msg
  let s := (chunksFuel 64 padded.length padded).foldl compressBlock sha256Init
  beBytesFixed 4 s.a ++ beBytesFixed 4 s.b ++ beBytesFixed 4 s.c ++
  beBytesFixed 4 s.d ++ beBytesFixed 4 s.e ++ beBytesFixed 4 s.f ++
  beBytesFixed 4 s.g ++ beBytesFixed 4 s.h

/-- HMAC-SHA256 (the algorithm implemented by `hmac.new(key, msg,
hashlib.sha256)`), with the standard 64-byte block size. -/
def hmacSha256 (key msg : List Nat) : List Nat :=
  let k0 := if 64 < key.length then sha256 key else key
  let kp := k0 ++ List.replicate (64 - k0.length) 0
  sha256 ((kp.map fun b => b ^^^ 0x5c) ++
    sha256 ((kp.map fun b => b ^^^ 0x36) ++ msg))

/-! ### Module constants of `keygen.py` (default secrets, alphabet, version) -/

def MASTER_SECRET : String :=
  "7f3a9c2e8b4d6f1a5c7e9b3d5f8a2c4e6b8d1f3a5c7e9b2d4f6a8c1e3b5d7f9a2c"

def VALIDATION_SECRET : String :=
  "9e2b4f7a1c5d8e3b6f9a2c5e8b1d4f7a3c6e9b2d5f8a1c4e7b9d3f6a8c2e5b7d"

def TIMESTAMP_SECRET : String :=
  "4a7c9e2b5d8f1a3c6e9b2d5f8a1c4e7b9d3f6a8c2e5b7d9f2a4c6e8b1d3f5a7c"

def LICENSE_ALPHABET : List Char := "23456789ABCDEFGHJKLMNPQRSTUVWXYZ".data

def LICENSE_VERSION : String := "2"

/-- UTF-8 bytes of an ASCII string (`str.encode()`; every string the code
encodes is ASCII, where UTF-8 agrees with the code points). -/
def strBytes (s : String) : List Nat := s.data.map Char.toNat

/-! ### Alphabet codec -/

/-- `LICENSE_ALPHABET[i]` (indexing is always in range in the source). -/
def alphabetChar (i : Nat) : Char := LICENSE_ALPHABET.getD i '2'

/-- `str.find`: index of the first occurrence of `c`, `none` for Python -1. -/
def charFind : List Char → Char → Option Nat
  | [], _ => none
  | a :: rest, c => if a = c then some 0 else (charFind rest c).map (· + 1)

/-- The loop of `encode_to_alphabet`: `length` base-32 digits of `value`,
least significant first, as alphabet characters. -/
def encChars : Nat → Nat → List Char
  | 0, _ => []
  | k + 1, v =>
      alphabetChar (v % LICENSE_ALPHABET.length)
        :: encChars k (v / LICENSE_ALPHABET.length)

/-- `str.rjust(n, c)` on a character list. -/
def rjustChars (c : Char) (n : Nat) (l : List Char) : List Char :=
  List.replicate (n - l.length) c ++ l

/-- `encode_to_alphabet(data, length)`. -/
def encode_to_alphabet (data : List Nat) (len : Nat) : List Char :=
  rjustChars (LICENSE_ALPHABET.getD 0 '2') len ((encChars len (beInt data)).reverse)

/-- The accumulation loop of `decode_from_alphabet`; `none` models the
`ValueError` raised on a character outside the alphabet. -/
def decodeValAux : List Char → Nat → Option Nat
  | [], v => some v
  | c :: rest, v =>
      match charFind LICENSE_ALPHABET c with
      | none => none
      | some p => decodeValAux rest (v * LICENSE_ALPHABET.length + p)

/-- `decode_from_alphabet(s)`: accumulated value serialized to the minimal
even-hex-length big-endian byte string. -/
def decode_from_alphabet (s : List Char) : Option (List Nat) :=
  (decodeValAux s 0).map natToBeBytes

/-! ### Signature engine -/

/-- `sep.join(parts)` on character lists. -/
def joinChar (c : Char) : List (List Char) → List Char
  | [] => []
  | [s] => s
  | s :: rest => s ++ c :: joinChar c rest

/-- `create_license_signature(payload_segments, timestamp)`. -/
def create_license_signature (payload_segments : List (List Char))
    (timestamp : Nat) : List Nat :=
  let data_to_sign := joinChar '|'
    [LICENSE_VERSION.data, joinChar '-' payload_segments,
     (toString timestamp).data, VALIDATION_SECRET.data]
  let hmac1 := hmacSha256 (strBytes MASTER_SECRET) (data_to_sign.map Char.toNat)
  let hmac2 := hmacSha256 (strBytes TIMESTAMP_SECRET)
    (hmac1 ++ strBytes (toString timestamp))
  sha256 (hmac1 ++ hmac2)

/-! ### Key generator -/

/-- `generate_license_key()`, with the random 12 bytes and the current Unix
time as explicit inputs (`secrets.token_bytes(12)` and `int(time.time())`). -/
def generate_license_key (rnd : List Nat) (now : Nat) : String :=
  let payload := rnd ++ beBytesFixed 4 now
  let seg1 := encode_to_alphabet (payload.take 6) 5
  let seg2 := encode_to_alphabet ((payload.drop 6).take 5) 5
  let seg3 := encode_to_alphabet ((payload.drop 11).take 5) 5
  let signature := create_license_signature [seg1, seg2, seg3] now
  let seg4 := encode_to_alphabet (signature.take 5) 5
  let seg5 := encode_to_alphabet ((signature.drop 5).take 5) 5
  String.mk (joinChar '-' [seg1, seg2, seg3, seg4, seg5])

/-! ### Key validator -/

/-- `str.split('-')` on a character list. -/
def splitDash : List Char → List (List Char)
  | [] => [[]]
  | c :: rest =>
      if c = '-' then [] :: splitDash rest
      else
        match splitDash rest with
        | s :: ss => (c :: s) :: ss
        | [] => [[c]]

/-- Consume one 5-character alphabet segment (the `[ALPH]{5}` atom of the
format regex). -/
def takeSeg : List Char → Option (List Char)
  | c1 :: c2 :: c3 :: c4 :: c5 :: rest =>
      if [c1, c2, c3, c4, c5].all (fun c => decide (c ∈ LICENSE_ALPHABET))
      then some rest else none
  | _ => none

/-- Consume `-` followed by one segment (the `(-[ALPH]{5})` group). -/
def dashSeg : List Char → Option (List Char)
  | c :: rest => if c = '-' then takeSeg rest else none
  | [] => none

/-- Anchored match of `^[ALPH]{5}(-[ALPH]{5}){4}$`. -/
def matchesPattern (cs : List Char) : Bool :=
  (((((takeSeg cs).bind dashSeg).bind dashSeg).bind dashSeg).bind dashSeg)
    == some []

/-- `validate_license_format(key)`: regex match, 5-way split length check,
and decodability of every segment. -/
def validate_license_format (key : String) : Bool :=
  if !(matchesPattern key.data) then false
  else
    let segs := splitDash key.data
    if segs.length == 5 then
      segs.all fun s => (decode_from_alphabet s).isSome
    else false

/-- Result dictionary of `validate_license_signature` (the `issued` date
string, a pure formatting of the timestamp, is not modelled). -/
inductive ValidationResult where
  | valid (timestamp : Nat) (age_days : Int)
  | invalid (error : String)
deriving Repr, DecidableEq

/-- `ljust(16, b'\x00')` guarded by the length test of the source. -/
def pad16 (bs : List Nat) : List Nat :=
  if bs.length < 16 then bs ++ List.replicate (16 - bs.length) 0 else bs

/-- `ljust(10, b'\x00')` guarded by the length test of the source. -/
def pad10 (bs : List Nat) : List Nat :=
  if bs.length < 10 then bs ++ List.replicate (10 - bs.length) 0 else bs

/-- The `for i in range(3)` decode-and-concatenate loop over the payload
segments; `none` models a raised `ValueError` (caught by the `except`). -/
def decode3 (s1 s2 s3 : List Char) : Option (List Nat) :=
  (decode_from_alphabet s1).bind fun b1 =>
  (decode_from_alphabet s2).bind fun b2 =>
  (decode_from_alphabet s3).map fun b3 => b1 ++ b2 ++ b3

/-- The `for i in range(3, 5)` decode loop over the signature segments. -/
def decode2 (s4 s5 : List Char) : Option (List Nat) :=
  (decode_from_alphabet s4).bind fun b4 =>
  (decode_from_alphabet s5).map fun b5 => b4 ++ b5

/-- Body of `validate_license_signature` after the format check and the
5-way split succeeded. -/
def validateSegments (s1 s2 s3 s4 s5 : List Char) (now : Nat) :
    ValidationResult :=
  match decode3 s1 s2 s3 with
  | none => .invalid "Validation error"
  | some pb =>
    let payload := pad16 pb
    let tsBytes := payload.drop (payload.length - 4)
    if tsBytes.length ≠ 4 then .invalid "Invalid timestamp structure"
    else
      let ts := beInt tsBytes
      if (ts : Int) > (now : Int) + 86400 then .invalid "Timestamp in future"
      else if (ts : Int) < (now : Int) - 365 * 86400 * 2 then
        .invalid "License too old"
      else
        let expected := create_license_signature [s1, s2, s3] ts
        match decode2 s4 s5 with
        | none => .invalid "Validation error"
        | some ps =>
          if expected.take 10 ≠ (pad10 ps).take 10 then
            .invalid "Invalid signature"
          else .valid ts (((now : Int) - (ts : Int)).fdiv 86400)

/-- `validate_license_signature(key)`, with the current Unix time as an
explicit input.  Any list shape other than five segments would be an
`IndexError` swallowed by the `except` clause (unreachable once the format
check passed). -/
def validate_license_signature (key : String) (now : Nat) : ValidationResult :=
  if !(validate_license_format key) then .invalid "Invalid format"
  else
    match splitDash (key.data.map Char.toUpper) with
    | [s1, s2, s3, s4, s5] => validateSegments s1 s2 s3 s4 s5 now
    | _ => .invalid "Validation error"

/-! ### Spec-side definitions and statement helpers -/

/-- A well-formed segment in the sense of the spec: exactly 5 characters,
all drawn from the 32-symbol alphabet. -/
def SegOk (s : List Char) : Prop :=
  s.length = 5 ∧ ∀ c ∈ s, c ∈ LICENSE_ALPHABET

/-- Decomposition of a character list as `segment(-segment){4}`. -/
def Decomp (cs : List Char) : Prop :=
  ∃ s1 s2 s3 s4 s5,
    cs = s1 ++ '-' :: (s2 ++ '-' :: (s3 ++ '-' :: (s4 ++ '-' :: s5))) ∧
    SegOk s1 ∧ SegOk s2 ∧ SegOk s3 ∧ SegOk s4 ∧ SegOk s5

/-- Executable rendering of the spec format rule: splitting on `-` yields
exactly five segments, each of exactly 5 alphabet characters. -/
def specFormatOk (key : String) : Bool :=
  ((splitDash key.data).length == 5) &&
  (splitDash key.data).all fun s =>
    (s.length == 5) && s.all fun c => decide (c ∈ LICENSE_ALPHABET)

/-- The candidate timestamp the validator recovers from a key: decode the
first three segments, right-pad to 16 bytes, read the last 4 bytes
big-endian (lines 156-172 of the source). -/
def candidate_timestamp (key : String) : Nat :=
  match splitDash (key.data.map Char.toUpper) with
  | s1 :: s2 :: s3 :: _ =>
      match decode3 s1 s2 s3 with
      | some pb => beInt ((pad16 pb).drop ((pad16 pb).length - 4))
      | none => 0
  | _ => 0

/-- The signature algorithm as the spec words it: a canonical signing
string (version tag, segments joined by `-`, decimal timestamp, validation
secret, joined by `|`), `hmac1` keyed by the master secret over it, `hmac2`
keyed by the timestamp secret over `hmac1 ++ decimal_text(timestamp)`, and
`SHA256(hmac1 ++ hmac2)`. -/
def signature_spec (segs : List (List Char)) (timestamp : Nat) : List Nat :=
  let canonical := joinChar '|'
    [LICENSE_VERSION.data, joinChar '-' segs,
     (toString timestamp).data, VALIDATION_SECRET.data]
  let hmac1 := hmacSha256 (strBytes MASTER_SECRET) (canonical.map Char.toNat)
  let hmac2 := hmacSha256 (strBytes TIMESTAMP_SECRET)
    (hmac1 ++ (toString timestamp).data.map Char.toNat)
  sha256 (hmac1 ++ hmac2)

/-! ### Lemmas: byte serialization -/

theorem beInt_append_singleton (xs : List Nat) (b : Nat) :
    beInt (xs ++ [b]) = beInt xs * 256 + b := by
  simp [beInt, List.foldl_append]

theorem beInt_leDigitsFuel (fuel : Nat) :
    ∀ v : Nat, v ≤ fuel → beInt ((leDigitsFuel fuel v).reverse) = v := by
  induction fuel with
  | zero =>
    intro v hv
    interval_cases v
    simp [leDigitsFuel, beInt]
  | succ fuel ih =>
    intro v hv
    by_cases h0 : v = 0
    · simp [leDigitsFuel, h0, beInt]
    · have hrec : v / 256 ≤ fuel := by
        have : v / 256 < v := Nat.div_lt_self (Nat.pos_of_ne_zero h0) (by omega)
        omega
      simp only [leDigitsFuel, if_neg h0, List.reverse_cons]
      rw [beInt_append_singleton, ih _ hrec]
      omega

theorem beInt_natToBeBytes (v : Nat) : beInt (natToBeBytes v) = v := by
  by_cases h0 : v = 0
  · simp [natToBeBytes, h0, beInt]
  · simp only [natToBeBytes, if_neg h0]
    exact beInt_leDigitsFuel v v le_rfl

theorem leDigitsFuel_length (fuel : Nat) :
    ∀ v k : Nat, v < 256 ^ k → (leDigitsFuel fuel v).length ≤ k := by
  induction fuel with
  | zero => intro v k _; simp [leDigitsFuel]
  | succ fuel ih =>
    intro v k hv
    by_cases h0 : v = 0
    · simp [leDigitsFuel, h0]
    · cases k with
      | zero => simp at hv; omega
      | succ k =>
        have hdiv : v / 256 < 256 ^ k := by
          rw [Nat.div_lt_iff_lt_mul (by omega)]
          calc v < 256 ^ (k + 1) := hv
            _ = 256 ^ k * 256 := by ring
        simp only [leDigitsFuel, if_neg h0, List.length_cons]
        have := ih (v / 256) k hdiv
        omega

theorem natToBeBytes_length_le {v k : Nat} (hv : v < 256 ^ k) (hk : 0 < k) :
    (natToBeBytes v).length ≤ k := by
  by_cases h0 : v = 0
  · simp [natToBeBytes, h0]; omega
  · simp only [natToBeBytes, if_neg h0, List.length_reverse]
    exact leDigitsFuel_length v v k hv

theorem beBytesFixed_length (k : Nat) : ∀ v, (beBytesFixed k v).length = k := by
  induction k with
  | zero => intro v; simp [beBytesFixed]
  | succ k ih => intro v; simp [beBytesFixed, ih]

/-! ### Lemmas: alphabet codec -/

theorem alphabet_length : LICENSE_ALPHABET.length = 32 := rfl

theorem alphabetChar_mem : ∀ d : Nat, d < 32 → alphabetChar d ∈ LICENSE_ALPHABET := by
  decide

theorem charFind_alphabetChar :
    ∀ d : Nat, d < 32 → charFind LICENSE_ALPHABET (alphabetChar d) = some d := by
  decide

theorem alphabet_toUpper : ∀ c ∈ LICENSE_ALPHABET, c.toUpper = c := by decide

theorem alphabet_ne_dash : ∀ c ∈ LICENSE_ALPHABET, c ≠ '-' := by decide

theorem charFind_eq_none {l : List Char} {c : Char} :
    charFind l c = none ↔ c ∉ l := by
  induction l with
  | nil => simp [charFind]
  | cons a rest ih =>
    simp only [charFind, List.mem_cons]
    by_cases hac : a = c
    · simp [hac]
    · cases h : charFind rest c with
      | none =>
        have h1 : c ∉ rest := ih.mp h
        have h2 : c ≠ a := fun h' => hac h'.symm
        simp [if_neg hac, h1, h2]
      | some p =>
        have hmem : c ∈ rest := by
          by_contra hnot
          rw [← ih] at hnot
          simp [hnot] at h
        simp [if_neg hac, hmem]

theorem charFind_lt {l : List Char} {c : Char} :
    ∀ {p : Nat}, charFind l c = some p → p < l.length := by
  induction l with
  | nil => intro p h; simp [charFind] at h
  | cons a rest ih =>
    intro p h
    simp only [charFind] at h
    by_cases hac : a = c
    · simp [hac] at h
      simp only [List.length_cons]
      omega
    · simp only [if_neg hac] at h
      cases hq : charFind rest c with
      | none => simp [hq] at h
      | some q =>
        simp [hq] at h
        have := ih hq
        simp only [List.length_cons]
        omega

theorem encChars_length (k : Nat) : ∀ v, (encChars k v).length = k := by
  induction k with
  | zero => intro v; simp [encChars]
  | succ k ih => intro v; simp [encChars, ih]

theorem encode_to_alphabet_length (data : List Nat) (n : Nat) :
    (encode_to_alphabet data n).length = n := by
  simp [encode_to_alphabet, rjustChars, encChars_length]

theorem encChars_mem (k : Nat) :
    ∀ v, ∀ c ∈ encChars k v, c ∈ LICENSE_ALPHABET := by
  induction k with
  | zero => intro v c hc; simp [encChars] at hc
  | succ k ih =>
    intro v c hc
    simp only [encChars, List.mem_cons] at hc
    rcases hc with hc | hc
    · subst hc
      exact alphabetChar_mem _
        (by rw [alphabet_length]; exact Nat.mod_lt _ (by decide))
    · exact ih _ _ hc

theorem encode_to_alphabet_mem (data : List Nat) (n : Nat) :
    ∀ c ∈ encode_to_alphabet data n, c ∈ LICENSE_ALPHABET := by
  intro c hc
  simp only [encode_to_alphabet, rjustChars, List.mem_append,
    List.mem_reverse] at hc
  rcases hc with hc | hc
  · have := List.eq_of_mem_replicate hc
    subst this
    decide
  · exact encChars_mem _ _ _ hc

theorem segOk_encode (data : List Nat) : SegOk (encode_to_alphabet data 5) :=
  ⟨encode_to_alphabet_length data 5, encode_to_alphabet_mem data 5⟩

theorem decodeValAux_append (xs : List Char) :
    ∀ (ys : List Char) (a : Nat),
      decodeValAux (xs ++ ys) a = (decodeValAux xs a).bind (decodeValAux ys) := by
  induction xs with
  | nil => intro ys a; simp [decodeValAux]
  | cons c rest ih =>
    intro ys a
    simp only [List.cons_append, decodeValAux]
    cases charFind LICENSE_ALPHABET c with
    | none => simp
    | some p => simp [ih]

theorem decodeValAux_isSome (s : List Char) :
    ∀ a, (∀ c ∈ s, c ∈ LICENSE_ALPHABET) → ∃ v, decodeValAux s a = some v := by
  induction s with
  | nil => intro a _; exact ⟨a, rfl⟩
  | cons c rest ih =>
    intro a hmem
    have hc : c ∈ LICENSE_ALPHABET := hmem c (by simp)
    have : charFind LICENSE_ALPHABET c ≠ none := by
      rw [Ne, charFind_eq_none]; simp [hc]
    cases hp : charFind LICENSE_ALPHABET c with
    | none => exact absurd hp this
    | some p =>
      simp only [decodeValAux, hp]
      exact ih _ (fun d hd => hmem d (by simp [hd]))

theorem decodeValAux_none (s : List Char) :
    ∀ a, (∃ c ∈ s, c ∉ LICENSE_ALPHABET) → decodeValAux s a = none := by
  induction s with
  | nil => intro a h; simp at h
  | cons c rest ih =>
    intro a h
    rcases h with ⟨d, hd, hdn⟩
    simp only [List.mem_cons] at hd
    rcases hd with rfl | hd
    · have : charFind LICENSE_ALPHABET d = none := charFind_eq_none.mpr hdn
      simp [decodeValAux, this]
    · simp only [decodeValAux]
      cases charFind LICENSE_ALPHABET c with
      | none => rfl
      | some p => exact ih _ ⟨d, hd, hdn⟩

theorem decodeValAux_lt (s : List Char) :
    ∀ a v, decodeValAux s a = some v → v < (a + 1) * 32 ^ s.length := by
  induction s with
  | nil =>
    intro a v h
    simp only [decodeValAux, Option.some_inj] at h
    subst h
    simp
  | cons c rest ih =>
    intro a v h
    simp only [decodeValAux] at h
    cases hp : charFind LICENSE_ALPHABET c with
    | none => simp [hp] at h
    | some p =>
      rw [hp] at h
      have hplt : p < 32 := by
        have := charFind_lt hp
        rwa [alphabet_length] at this
      have hrec := ih _ _ h
      have hstep : (a * LICENSE_ALPHABET.length + p + 1) ≤ (a + 1) * 32 := by
        rw [alphabet_length]; omega
      calc v < (a * LICENSE_ALPHABET.length + p + 1) * 32 ^ rest.length := hrec
        _ ≤ (a + 1) * 32 * 32 ^ rest.length :=
            Nat.mul_le_mul_right _ hstep
        _ = (a + 1) * 32 ^ (c :: rest).length := by
            simp [List.length_cons, pow_succ]; ring

theorem decode_segment_value (s : List Char) (v : Nat)
    (hlen : s.length = 5) (h : decodeValAux s 0 = some v) : v < 32 ^ 5 := by
  have := decodeValAux_lt s 0 v h
  rw [hlen] at this
  simpa using this

theorem decode_from_alphabet_bytes_le {s : List Char} {bs : List Nat}
    (hlen : s.length = 5) (h : decode_from_alphabet s = some bs) :
    bs.length ≤ 4 := by
  simp only [decode_from_alphabet] at h
  cases hv : decodeValAux s 0 with
  | none => rw [hv] at h; simp at h
  | some v =>
    rw [hv] at h
    simp at h
    subst h
    have hvlt : v < 32 ^ 5 := decode_segment_value s v hlen hv
    exact natToBeBytes_length_le (by norm_num at hvlt ⊢; omega) (by norm_num)

theorem dec_enc (k : Nat) :
    ∀ v a, decodeValAux ((encChars k v).reverse) a
      = some (a * 32 ^ k + v % 32 ^ k) := by
  induction k with
  | zero => intro v a; simp [encChars, decodeValAux, Nat.mod_one]
  | succ k ih =>
    intro v a
    simp only [encChars, List.reverse_cons]
    rw [decodeValAux_append]
    rw [alphabet_length] at *
    rw [ih (v / 32) a]
    have h32 : v % 32 < 32 := Nat.mod_lt _ (by decide)
    simp only [Option.some_bind, decodeValAux,
      charFind_alphabetChar (v % 32) h32, alphabet_length]
    congr 1
    have hmod : v % (32 * 32 ^ k) = v % 32 + 32 * (v / 32 % 32 ^ k) :=
      Nat.mod_mul
    rw [pow_succ]
    calc (a * 32 ^ k + v / 32 % 32 ^ k) * 32 + v % 32
        = a * (32 ^ k * 32) + (v % 32 + 32 * (v / 32 % 32 ^ k)) := by ring
      _ = a * (32 ^ k * 32) + v % (32 * 32 ^ k) := by rw [hmod]
      _ = a * (32 ^ k * 32) + v % (32 ^ k * 32) := by rw [Nat.mul_comm 32]

theorem decode_encode (data : List Nat) :
    decode_from_alphabet (encode_to_alphabet data 5)
      = some (natToBeBytes (beInt data % 32 ^ 5)) := by
  have hlen : ((encChars 5 (beInt data)).reverse).length = 5 := by
    simp [encChars_length]
  simp only [decode_from_alphabet, encode_to_alphabet, rjustChars, hlen]
  simp only [List.length_reverse, encChars_length, Nat.sub_self,
    List.replicate_zero, List.nil_append]
  rw [dec_enc 5 (beInt data) 0]
  simp

/-! ### Lemmas: split and join on the dash separator -/

theorem splitDash_ne_nil (cs : List Char) : splitDash cs ≠ [] := by
  induction cs with
  | nil => simp [splitDash]
  | cons c rest ih =>
    by_cases hc : c = '-'
    · simp [splitDash, hc]
    · simp only [splitDash, if_neg hc]
      cases h : splitDash rest with
      | nil => exact absurd h ih
      | cons s ss => simp

theorem splitDash_cons_ne_dash (c : Char) (rest : List Char) (hc : c ≠ '-') :
    splitDash (c :: rest) =
      match splitDash rest with
      | s :: ss => (c :: s) :: ss
      | [] => [[c]] := by
  simp [splitDash, if_neg hc]

theorem splitDash_no_dash (s : List Char) (h : '-' ∉ s) :
    splitDash s = [s] := by
  induction s with
  | nil => rfl
  | cons c rest ih =>
    simp only [List.mem_cons, not_or] at h
    rw [splitDash_cons_ne_dash c rest (fun hc => h.1 hc.symm)]
    rw [ih h.2]

theorem splitDash_append (s r : List Char) (h : '-' ∉ s) :
    splitDash (s ++ '-' :: r) = s :: splitDash r := by
  induction s with
  | nil => simp [splitDash]
  | cons c t ih =>
    simp only [List.mem_cons, not_or] at h
    simp only [List.cons_append]
    rw [splitDash_cons_ne_dash c (t ++ '-' :: r) (fun hc => h.1 hc.symm)]
    rw [ih h.2]

theorem joinChar_splitDash (cs : List Char) :
    joinChar '-' (splitDash cs) = cs := by
  induction cs with
  | nil => rfl
  | cons c rest ih =>
    by_cases hc : c = '-'
    · subst hc
      simp only [splitDash]
      cases h : splitDash rest with
      | nil => exact absurd h (splitDash_ne_nil rest)
      | cons s ss =>
        rw [h] at ih
        simp [joinChar, ← ih]
    · rw [splitDash_cons_ne_dash c rest hc]
      cases h : splitDash rest with
      | nil => exact absurd h (splitDash_ne_nil rest)
      | cons s ss =>
        rw [h] at ih
        cases ss with
        | nil => simpa [joinChar] using congrArg (c :: ·) ih
        | cons s2 ss2 => simpa [joinChar] using congrArg (c :: ·) ih

theorem segOk_no_dash {s : List Char} (h : SegOk s) : '-' ∉ s := by
  intro hd
  exact alphabet_ne_dash '-' (h.2 '-' hd) rfl

/-! ### Lemmas: the format regex matcher -/

theorem list_length_five {α : Type} {s : List α} (h : s.length = 5) :
    ∃ a b c d e, s = [a, b, c, d, e] := by
  match s, h with
  | [a, b, c, d, e], _ => exact ⟨a, b, c, d, e, rfl⟩

theorem takeSeg_of_segOk {s : List Char} (r : List Char) (h : SegOk s) :
    takeSeg (s ++ r) = some r := by
  obtain ⟨a, b, c, d, e, rfl⟩ := list_length_five h.1
  simp only [List.cons_append, List.nil_append, takeSeg]
  rw [if_pos]
  rw [List.all_eq_true]
  intro x hx
  exact decide_eq_true (h.2 x hx)

theorem takeSeg_some {cs r : List Char} (h : takeSeg cs = some r) :
    ∃ s, SegOk s ∧ cs = s ++ r := by
  rcases cs with _ | ⟨c1, _ | ⟨c2, _ | ⟨c3, _ | ⟨c4, _ | ⟨c5, rest⟩⟩⟩⟩⟩
  · simp [takeSeg] at h
  · simp [takeSeg] at h
  · simp [takeSeg] at h
  · simp [takeSeg] at h
  · simp [takeSeg] at h
  · simp only [takeSeg] at h
    split at h
    · rename_i hall
      simp only [Option.some_inj] at h
      subst h
      refine ⟨[c1, c2, c3, c4, c5], ⟨rfl, ?_⟩, rfl⟩
      rw [List.all_eq_true] at hall
      intro c hc
      exact of_decide_eq_true (hall c hc)
    · exact absurd h (by simp)

theorem dashSeg_of_segOk {s : List Char} (r : List Char) (h : SegOk s) :
    dashSeg ('-' :: (s ++ r)) = some r := by
  simp only [dashSeg, if_pos rfl]
  exact takeSeg_of_segOk r h

theorem dashSeg_some {cs r : List Char} (h : dashSeg cs = some r) :
    ∃ s, SegOk s ∧ cs = '-' :: (s ++ r) := by
  rcases cs with _ | ⟨c, rest⟩
  · simp [dashSeg] at h
  · simp only [dashSeg] at h
    split at h
    · rename_i hc
      subst hc
      obtain ⟨s, hs, rfl⟩ := takeSeg_some h
      exact ⟨s, hs, rfl⟩
    · exact absurd h (by simp)

theorem matchesPattern_of_decomp {cs : List Char} (h : Decomp cs) :
    matchesPattern cs = true := by
  obtain ⟨s1, s2, s3, s4, s5, rfl, h1, h2, h3, h4, h5⟩ := h
  have e5 : s5 = s5 ++ [] := by simp
  simp only [matchesPattern]
  rw [takeSeg_of_segOk _ h1, Option.some_bind, dashSeg_of_segOk _ h2,
    Option.some_bind, dashSeg_of_segOk _ h3, Option.some_bind,
    dashSeg_of_segOk _ h4, Option.some_bind, e5, dashSeg_of_segOk _ h5]
  simp

theorem decomp_of_matchesPattern {cs : List Char}
    (h : matchesPattern cs = true) : Decomp cs := by
  simp only [matchesPattern, beq_iff_eq] at h
  cases ht : takeSeg cs with
  | none => rw [ht] at h; simp at h
  | some r1 =>
    rw [ht, Option.some_bind] at h
    cases hd1 : dashSeg r1 with
    | none => rw [hd1] at h; simp at h
    | some r2 =>
      rw [hd1, Option.some_bind] at h
      cases hd2 : dashSeg r2 with
      | none => rw [hd2] at h; simp at h
      | some r3 =>
        rw [hd2, Option.some_bind] at h
        cases hd3 : dashSeg r3 with
        | none => rw [hd3] at h; simp at h
        | some r4 =>
          rw [hd3, Option.some_bind] at h
          obtain ⟨s1, hs1, rfl⟩ := takeSeg_some ht
          obtain ⟨s2, hs2, rfl⟩ := dashSeg_some hd1
          obtain ⟨s3, hs3, rfl⟩ := dashSeg_some hd2
          obtain ⟨s4, hs4, rfl⟩ := dashSeg_some hd3
          obtain ⟨s5, hs5, h5⟩ := dashSeg_some h
          subst h5
          exact ⟨s1, s2, s3, s4, s5, by simp, hs1, hs2, hs3, hs4, hs5⟩

/-! ### Lemmas: format check equivalences -/

theorem joinChar_five (c : Char) (s1 s2 s3 s4 s5 : List Char) :
    joinChar c [s1, s2, s3, s4, s5]
      = s1 ++ c :: (s2 ++ c :: (s3 ++ c :: (s4 ++ c :: s5))) := rfl

theorem splitDash_decomp {s1 s2 s3 s4 s5 : List Char} (h1 : SegOk s1)
    (h2 : SegOk s2) (h3 : SegOk s3) (h4 : SegOk s4) (h5 : SegOk s5) :
    splitDash (s1 ++ '-' :: (s2 ++ '-' :: (s3 ++ '-' :: (s4 ++ '-' :: s5))))
      = [s1, s2, s3, s4, s5] := by
  rw [splitDash_append _ _ (segOk_no_dash h1),
    splitDash_append _ _ (segOk_no_dash h2),
    splitDash_append _ _ (segOk_no_dash h3),
    splitDash_append _ _ (segOk_no_dash h4),
    splitDash_no_dash _ (segOk_no_dash h5)]

theorem decode_from_alphabet_isSome {s : List Char}
    (h : ∀ c ∈ s, c ∈ LICENSE_ALPHABET) :
    (decode_from_alphabet s).isSome = true := by
  obtain ⟨v, hv⟩ := decodeValAux_isSome s 0 h
  simp [decode_from_alphabet, hv]

theorem specFormatOk_iff (key : String) :
    specFormatOk key = true ↔ Decomp key.data := by
  constructor
  · intro h
    simp only [specFormatOk, Bool.and_eq_true, beq_iff_eq,
      List.all_eq_true] at h
    obtain ⟨hlen, hall⟩ := h
    obtain ⟨s1, s2, s3, s4, s5, hsegs⟩ := list_length_five hlen
    have hsOk : ∀ s ∈ splitDash key.data, SegOk s := by
      intro s hs
      have := hall s hs
      simp only [Bool.and_eq_true, beq_iff_eq, List.all_eq_true] at this
      exact ⟨this.1, fun c hc => of_decide_eq_true (this.2 c hc)⟩
    refine ⟨s1, s2, s3, s4, s5, ?_, ?_, ?_, ?_, ?_, ?_⟩
    · rw [← joinChar_splitDash key.data, hsegs, joinChar_five]
    · exact hsOk s1 (by rw [hsegs]; simp)
    · exact hsOk s2 (by rw [hsegs]; simp)
    · exact hsOk s3 (by rw [hsegs]; simp)
    · exact hsOk s4 (by rw [hsegs]; simp)
    · exact hsOk s5 (by rw [hsegs]; simp)
  · intro h
    obtain ⟨s1, s2, s3, s4, s5, hk, h1, h2, h3, h4, h5⟩ := h
    simp only [specFormatOk, hk, splitDash_decomp h1 h2 h3 h4 h5,
      Bool.and_eq_true, beq_iff_eq, List.all_eq_true]
    refine ⟨rfl, ?_⟩
    intro s hs
    simp only [List.mem_cons] at hs
    have : SegOk s := by
      rcases hs with rfl | rfl | rfl | rfl | rfl | hs
      · exact h1
      · exact h2
      · exact h3
      · exact h4
      · exact h5
      · simp at hs
    exact ⟨this.1, fun c hc => decide_eq_true (this.2 c hc)⟩

theorem validate_license_format_iff (key : String) :
    validate_license_format key = true ↔ Decomp key.data := by
  constructor
  · intro h
    simp only [validate_license_format] at h
    by_cases hm : matchesPattern key.data = true
    · exact decomp_of_matchesPattern hm
    · rw [Bool.not_eq_true] at hm
      rw [hm] at h
      simp at h
  · intro h
    have hm := matchesPattern_of_decomp h
    obtain ⟨s1, s2, s3, s4, s5, hk, h1, h2, h3, h4, h5⟩ := h
    rw [hk] at hm
    simp only [validate_license_format, hk, hm, Bool.not_true]
    rw [if_neg (by simp)]
    rw [splitDash_decomp h1 h2 h3 h4 h5]
    rw [if_pos (by rfl)]
    rw [List.all_eq_true]
    intro s hs
    simp only [List.mem_cons] at hs
    rcases hs with rfl | rfl | rfl | rfl | rfl | hs
    · exact decode_from_alphabet_isSome h1.2
    · exact decode_from_alphabet_isSome h2.2
    · exact decode_from_alphabet_isSome h3.2
    · exact decode_from_alphabet_isSome h4.2
    · exact decode_from_alphabet_isSome h5.2
    · simp at hs

theorem format_eq_specFormat (key : String) :
    validate_license_format key = specFormatOk key := by
  by_cases h : Decomp key.data
  · rw [(validate_license_format_iff key).mpr h, ((specFormatOk_iff key).mpr h)]
  · have hf : validate_license_format key ≠ true :=
      fun hc => h ((validate_license_format_iff key).mp hc)
    have hs : specFormatOk key ≠ true :=
      fun hc => h ((specFormatOk_iff key).mp hc)
    simp only [Bool.not_eq_true] at hf hs
    rw [hf, hs]

/-! ### Lemmas: uppercasing is the identity on well-formed keys -/

theorem dash_toUpper : ('-').toUpper = '-' := by decide

theorem map_toUpper_seg {s : List Char}
    (h : ∀ c ∈ s, c ∈ LICENSE_ALPHABET) : s.map Char.toUpper = s := by
  induction s with
  | nil => rfl
  | cons c rest ih =>
    simp only [List.map_cons]
    rw [alphabet_toUpper c (h c (by simp)), ih (fun d hd => h d (by simp [hd]))]

theorem map_toUpper_decomp {cs : List Char} (h : Decomp cs) :
    cs.map Char.toUpper = cs := by
  obtain ⟨s1, s2, s3, s4, s5, rfl, h1, h2, h3, h4, h5⟩ := h
  simp only [List.map_append, List.map_cons, dash_toUpper,
    map_toUpper_seg h1.2, map_toUpper_seg h2.2, map_toUpper_seg h3.2,
    map_toUpper_seg h4.2, map_toUpper_seg h5.2]

/-! ### Lemmas: the validator on well-formed keys -/

theorem decode_seg {s : List Char} (h : SegOk s) :
    ∃ bs, decode_from_alphabet s = some bs ∧ bs.length ≤ 4 := by
  obtain ⟨v, hv⟩ := decodeValAux_isSome s 0 h.2
  refine ⟨natToBeBytes v, by simp [decode_from_alphabet, hv], ?_⟩
  exact decode_from_alphabet_bytes_le h.1 (by simp [decode_from_alphabet, hv])

theorem decode3_segOk {s1 s2 s3 : List Char} (h1 : SegOk s1) (h2 : SegOk s2)
    (h3 : SegOk s3) :
    ∃ pb, decode3 s1 s2 s3 = some pb ∧ pb.length ≤ 12 := by
  obtain ⟨b1, hb1, hl1⟩ := decode_seg h1
  obtain ⟨b2, hb2, hl2⟩ := decode_seg h2
  obtain ⟨b3, hb3, hl3⟩ := decode_seg h3
  refine ⟨b1 ++ b2 ++ b3, by simp [decode3, hb1, hb2, hb3], ?_⟩
  simp only [List.length_append]
  omega

theorem pad16_eq {pb : List Nat} (h : pb.length ≤ 12) :
    pad16 pb = pb ++ List.replicate (16 - pb.length) 0 := by
  simp only [pad16, if_pos (by omega : pb.length < 16)]

theorem pad16_length {pb : List Nat} (h : pb.length ≤ 12) :
    (pad16 pb).length = 16 := by
  rw [pad16_eq h]
  simp only [List.length_append, List.length_replicate]
  omega

theorem pad16_drop {pb : List Nat} (h : pb.length ≤ 12) :
    (pad16 pb).drop ((pad16 pb).length - 4) = List.replicate 4 0 := by
  rw [pad16_length h, pad16_eq h]
  rw [List.drop_append_eq_append_drop]
  rw [List.drop_eq_nil_of_le (by omega : pb.length ≤ 16 - 4)]
  rw [List.drop_replicate]
  rw [List.nil_append]
  congr 1
  omega

theorem beInt_replicate_four_zero : beInt (List.replicate 4 0) = 0 := rfl

theorem validateSegments_eq {s1 s2 s3 s4 s5 : List Char} (now : Nat)
    (h1 : SegOk s1) (h2 : SegOk s2) (h3 : SegOk s3) (h4 : SegOk s4)
    (h5 : SegOk s5) :
    ∃ ps, decode2 s4 s5 = some ps ∧
      validateSegments s1 s2 s3 s4 s5 now =
        if (0 : Int) < (now : Int) - 365 * 86400 * 2 then
          ValidationResult.invalid "License too old"
        else if (create_license_signature [s1, s2, s3] 0).take 10
            ≠ (pad10 ps).take 10 then
          ValidationResult.invalid "Invalid signature"
        else ValidationResult.valid 0 ((now : Int).fdiv 86400) := by
  obtain ⟨b4, hb4, _⟩ := decode_seg h4
  obtain ⟨b5, hb5, _⟩ := decode_seg h5
  obtain ⟨pb, hpb, hpbl⟩ := decode3_segOk h1 h2 h3
  have hdec2 : decode2 s4 s5 = some (b4 ++ b5) := by simp [decode2, hb4, hb5]
  refine ⟨b4 ++ b5, hdec2, ?_⟩
  simp only [validateSegments, hpb, pad16_drop hpbl, hdec2,
    beInt_replicate_four_zero, List.length_replicate, Nat.cast_zero,
    sub_zero]
  rw [if_neg (by omega)]
  rw [if_neg (by have := Int.natCast_nonneg now; omega)]

theorem validate_eq_segments {key : String} {s1 s2 s3 s4 s5 : List Char}
    (now : Nat)
    (hk : key.data
      = s1 ++ '-' :: (s2 ++ '-' :: (s3 ++ '-' :: (s4 ++ '-' :: s5))))
    (h1 : SegOk s1) (h2 : SegOk s2) (h3 : SegOk s3) (h4 : SegOk s4)
    (h5 : SegOk s5) :
    validate_license_signature key now
      = validateSegments s1 s2 s3 s4 s5 now := by
  have hd : Decomp key.data := ⟨s1, s2, s3, s4, s5, hk, h1, h2, h3, h4, h5⟩
  have hf := (validate_license_format_iff key).mpr hd
  have hu : key.data.map Char.toUpper = key.data := map_toUpper_decomp hd
  simp only [validate_license_signature, hf, Bool.not_true]
  rw [if_neg (by simp)]
  rw [hu, hk, splitDash_decomp h1 h2 h3 h4 h5]

theorem candidate_timestamp_decomp {key : String} {s1 s2 s3 s4 s5 : List Char}
    (hk : key.data
      = s1 ++ '-' :: (s2 ++ '-' :: (s3 ++ '-' :: (s4 ++ '-' :: s5))))
    (h1 : SegOk s1) (h2 : SegOk s2) (h3 : SegOk s3) (h4 : SegOk s4)
    (h5 : SegOk s5) :
    candidate_timestamp key = 0 := by
  have hd : Decomp key.data := ⟨s1, s2, s3, s4, s5, hk, h1, h2, h3, h4, h5⟩
  obtain ⟨pb, hpb, hpbl⟩ := decode3_segOk h1 h2 h3
  have hu : (s1 ++ '-' :: (s2 ++ '-' :: (s3 ++ '-' :: (s4 ++ '-' :: s5)))).map
      Char.toUpper
      = s1 ++ '-' :: (s2 ++ '-' :: (s3 ++ '-' :: (s4 ++ '-' :: s5))) := by
    rw [← hk]
    exact map_toUpper_decomp hd
  simp only [candidate_timestamp, hk, hu,
    splitDash_decomp h1 h2 h3 h4 h5, hpb, pad16_drop hpbl,
    beInt_replicate_four_zero]

theorem sha256_length (msg : List Nat) : (sha256 msg).length = 32 := by
  simp [sha256, List.length_append, beBytesFixed_length]

/-! ### The claims -/

/-- Claim C3: for every list of payload segments, every timestamp and the
(fixed) secrets, `create_license_signature` computes exactly the layered
construction the spec describes — `SHA256(hmac1 ++ hmac2)` over the
canonical `|`-joined signing string — and the result is a 32-byte digest. -/
theorem C3_signature_refines_spec (segs : List (List Char)) (ts : Nat) :
    create_license_signature segs ts = signature_spec segs ts
      ∧ (create_license_signature segs ts).length = 32 :=
  ⟨rfl, sha256_length _⟩

/-- Claim C4: decoding the 5-character encoding of any byte string and
reading the result as a big-endian integer recovers the original numeric
value modulo `32^5`. -/
theorem C4_decode_encode_roundtrip (data : List Nat) :
    (decode_from_alphabet (encode_to_alphabet data 5)).map beInt
      = some (beInt data % 32 ^ 5) := by
  rw [decode_encode]
  simp [beInt_natToBeBytes]

/-- Claim C10: signing and validation are deterministic pure functions of
their inputs; two runs on identical inputs yield identical results. -/
theorem C10_deterministic (segs1 segs2 : List (List Char)) (ts1 ts2 : Nat)
    (key1 key2 : String) (n1 n2 : Nat)
    (hseg : segs1 = segs2) (hts : ts1 = ts2) (hkey : key1 = key2)
    (hn : n1 = n2) :
    create_license_signature segs1 ts1 = create_license_signature segs2 ts2
      ∧ validate_license_signature key1 n1
        = validate_license_signature key2 n2 := by
  subst hseg
  subst hts
  subst hkey
  subst hn
  exact ⟨rfl, rfl⟩

/-- Witness for C10 at concrete inputs. -/
theorem C10_deterministic_witness :
    create_license_signature [] 0 = create_license_signature [] 0
      ∧ validate_license_signature "" 0 = validate_license_signature "" 0 :=
  C10_deterministic [] [] 0 0 "" "" 0 0 rfl rfl rfl rfl

/-- Claim C1 is violated by the code (code bug): a key produced by
`generate_license_key` is immediately rejected by
`validate_license_signature` at the very same current time, with the
"License too old" error, whenever the clock is past `2*365*86400` —
because each 5-character segment decodes to at most 4 bytes, so the
padded payload's last 4 bytes are zero and the recovered timestamp is 0,
not the generation timestamp. -/
theorem C1_generate_then_validate_rejected (rnd : List Nat) (now : Nat)
    (_hlen : rnd.length = 12) (_hnow : now < 4294967296)
    (hmodern : 63072000 < now) :
    validate_license_signature (generate_license_key rnd now) now
      = ValidationResult.invalid "License too old" := by
  have h1 := segOk_encode ((rnd ++ beBytesFixed 4 now).take 6)
  have h2 := segOk_encode (((rnd ++ beBytesFixed 4 now).drop 6).take 5)
  have h3 := segOk_encode (((rnd ++ beBytesFixed 4 now).drop 11).take 5)
  have h4 := segOk_encode ((create_license_signature
    [encode_to_alphabet ((rnd ++ beBytesFixed 4 now).take 6) 5,
     encode_to_alphabet (((rnd ++ beBytesFixed 4 now).drop 6).take 5) 5,
     encode_to_alphabet (((rnd ++ beBytesFixed 4 now).drop 11).take 5) 5]
    now).take 5)
  have h5 := segOk_encode (((create_license_signature
    [encode_to_alphabet ((rnd ++ beBytesFixed 4 now).take 6) 5,
     encode_to_alphabet (((rnd ++ beBytesFixed 4 now).drop 6).take 5) 5,
     encode_to_alphabet (((rnd ++ beBytesFixed 4 now).drop 11).take 5) 5]
    now).drop 5).take 5)
  have hk : (generate_license_key rnd now).data
      = encode_to_alphabet ((rnd ++ beBytesFixed 4 now).take 6) 5 ++ '-' ::
        (encode_to_alphabet (((rnd ++ beBytesFixed 4 now).drop 6).take 5) 5 ++ '-' ::
        (encode_to_alphabet (((rnd ++ beBytesFixed 4 now).drop 11).take 5) 5 ++ '-' ::
        (encode_to_alphabet ((create_license_signature
          [encode_to_alphabet ((rnd ++ beBytesFixed 4 now).take 6) 5,
           encode_to_alphabet (((rnd ++ beBytesFixed 4 now).drop 6).take 5) 5,
           encode_to_alphabet (((rnd ++ beBytesFixed 4 now).drop 11).take 5) 5]
          now).take 5) 5 ++ '-' ::
        encode_to_alphabet (((create_license_signature
          [encode_to_alphabet ((rnd ++ beBytesFixed 4 now).take 6) 5,
           encode_to_alphabet (((rnd ++ beBytesFixed 4 now).drop 6).take 5) 5,
           encode_to_alphabet (((rnd ++ beBytesFixed 4 now).drop 11).take 5) 5]
          now).drop 5).take 5) 5))) := rfl
  rw [validate_eq_segments now hk h1 h2 h3 h4 h5]
  obtain ⟨ps, hps, heq⟩ := validateSegments_eq now h1 h2 h3 h4 h5
  rw [heq]
  rw [if_pos (by omega)]

/-- Witness for C1 at a concrete random payload and clock value. -/
theorem C1_generate_then_validate_rejected_witness :
    (List.replicate 12 0).length = 12 ∧ 1760227200 < 4294967296
      ∧ 63072000 < 1760227200
      ∧ validate_license_signature
          (generate_license_key (List.replicate 12 0) 1760227200) 1760227200
          = ValidationResult.invalid "License too old" :=
  ⟨by decide, by decide, by decide,
    C1_generate_then_validate_rejected (List.replicate 12 0) 1760227200
      (by decide) (by decide) (by decide)⟩

/-- Claim C2: every well-formed key decodes to a candidate timestamp of 0
(each segment contributes at most 4 bytes, so the padding supplies the
last 4 bytes), and once the current Unix time exceeds `2*365*86400` the
validator returns an Invalid result on every input string — the Valid
branch is unreachable. -/
theorem C2_valid_branch_unreachable (key : String) (now : Nat)
    (hmodern : 2 * 365 * 86400 < now) :
    (specFormatOk key = true → candidate_timestamp key = 0)
      ∧ ∃ e, validate_license_signature key now
          = ValidationResult.invalid e := by
  constructor
  · intro hf
    obtain ⟨s1, s2, s3, s4, s5, hk, h1, h2, h3, h4, h5⟩ :=
      (specFormatOk_iff key).mp hf
    exact candidate_timestamp_decomp hk h1 h2 h3 h4 h5
  · by_cases hf : validate_license_format key = true
    · obtain ⟨s1, s2, s3, s4, s5, hk, h1, h2, h3, h4, h5⟩ :=
        (validate_license_format_iff key).mp hf
      rw [validate_eq_segments now hk h1 h2 h3 h4 h5]
      obtain ⟨ps, hps, heq⟩ := validateSegments_eq now h1 h2 h3 h4 h5
      rw [heq, if_pos (by omega)]
      exact ⟨_, rfl⟩
    · rw [Bool.not_eq_true] at hf
      refine ⟨"Invalid format", ?_⟩
      simp [validate_license_signature, hf]

/-- Witness for C2 at a concrete key and clock value. -/
theorem C2_valid_branch_unreachable_witness :
    2 * 365 * 86400 < 1760227200
      ∧ ((specFormatOk "AAAAA-BBBBB-CCCCC-DDDDD-EEEEE" = true →
            candidate_timestamp "AAAAA-BBBBB-CCCCC-DDDDD-EEEEE" = 0)
          ∧ ∃ e, validate_license_signature "AAAAA-BBBBB-CCCCC-DDDDD-EEEEE"
              1760227200 = ValidationResult.invalid e) :=
  ⟨by decide,
    C2_valid_branch_unreachable "AAAAA-BBBBB-CCCCC-DDDDD-EEEEE" 1760227200
      (by decide)⟩

/-- Claim C5: the validator answers exactly the spec's format rule — the
"Invalid format" error appears precisely when the key does not split into
five 5-character alphabet segments — and the codec rejects any string
containing a character outside the alphabet. -/
theorem C5_format_error_characterization (key : String) (now : Nat) :
    (validate_license_signature key now
        = ValidationResult.invalid "Invalid format"
      ↔ specFormatOk key = false)
    ∧ ∀ s : List Char, (∃ c ∈ s, c ∉ LICENSE_ALPHABET)
        → decode_from_alphabet s = none := by
  constructor
  · constructor
    · intro h
      by_contra hne
      rw [Bool.not_eq_false] at hne
      obtain ⟨s1, s2, s3, s4, s5, hk, h1, h2, h3, h4, h5⟩ :=
        (specFormatOk_iff key).mp hne
      rw [validate_eq_segments now hk h1 h2 h3 h4 h5] at h
      obtain ⟨ps, hps, heq⟩ := validateSegments_eq now h1 h2 h3 h4 h5
      rw [heq] at h
      split at h
      · simp only [ValidationResult.invalid.injEq] at h
        exact absurd h (by decide)
      · split at h
        · simp only [ValidationResult.invalid.injEq] at h
          exact absurd h (by decide)
        · simp at h
    · intro h
      have hf : validate_license_format key = false := by
        rw [format_eq_specFormat]
        exact h
      simp [validate_license_signature, hf]
  · intro s hs
    simp [decode_from_alphabet, decodeValAux_none s 0 hs]

/-- Witness for C5 at concrete inputs. -/
theorem C5_format_error_characterization_witness :
    validate_license_signature "" 0 = ValidationResult.invalid "Invalid format"
      ∧ decode_from_alphabet ['a'] = none :=
  ⟨((C5_format_error_characterization "" 0).1).mpr (by decide),
    (C5_format_error_characterization "" 0).2 ['a'] (by decide)⟩

/-- Claim C6: on a well-formatted key, letting `t` be the recovered
candidate timestamp and `n` the current time, the validator reports a
timestamp-range error exactly when `t > n + 86400` or
`t < n - 2*365*86400`; a candidate inside the window proceeds to
signature verification (yielding Valid with that timestamp, or the
signature error). -/
theorem C6_timestamp_bounds (key : String) (now : Nat)
    (hfmt : specFormatOk key = true) :
    ((validate_license_signature key now
          = ValidationResult.invalid "Timestamp in future"
        ∨ validate_license_signature key now
          = ValidationResult.invalid "License too old")
      ↔ ((candidate_timestamp key : Int) > (now : Int) + 86400
          ∨ (candidate_timestamp key : Int) < (now : Int) - 2 * 365 * 86400))
    ∧ (((now : Int) - 2 * 365 * 86400 ≤ (candidate_timestamp key : Int)
          ∧ (candidate_timestamp key : Int) ≤ (now : Int) + 86400)
        → (validate_license_signature key now
            = ValidationResult.invalid "Invalid signature"
          ∨ ∃ a, validate_license_signature key now
              = ValidationResult.valid (candidate_timestamp key) a)) := by
  obtain ⟨s1, s2, s3, s4, s5, hk, h1, h2, h3, h4, h5⟩ :=
    (specFormatOk_iff key).mp hfmt
  have hts : candidate_timestamp key = 0 :=
    candidate_timestamp_decomp hk h1 h2 h3 h4 h5
  rw [validate_eq_segments now hk h1 h2 h3 h4 h5, hts]
  obtain ⟨ps, hps, heq⟩ := validateSegments_eq now h1 h2 h3 h4 h5
  rw [heq]
  constructor
  · by_cases hold : (0 : Int) < (now : Int) - 365 * 86400 * 2
    · rw [if_pos hold]
      simp only [Nat.cast_zero]
      constructor
      · intro _
        right
        omega
      · intro _
        right
        trivial
    · rw [if_neg hold]
      simp only [Nat.cast_zero]
      constructor
      · intro h
        rcases h with h | h
        · split at h
          · simp only [ValidationResult.invalid.injEq] at h
            exact absurd h (by decide)
          · simp at h
        · split at h
          · simp only [ValidationResult.invalid.injEq] at h
            exact absurd h (by decide)
          · simp at h
      · intro h
        rcases h with h | h
        · exfalso
          have := Int.natCast_nonneg now
          omega
        · exfalso
          omega
  · intro hb
    simp only [Nat.cast_zero] at hb
    rw [if_neg (by omega)]
    by_cases hsig : (create_license_signature [s1, s2, s3] 0).take 10
        ≠ (pad10 ps).take 10
    · rw [if_pos hsig]
      left
      rfl
    · rw [if_neg hsig]
      right
      exact ⟨_, rfl⟩

/-- Witness for C6 at a concrete key and clock value. -/
theorem C6_timestamp_bounds_witness :
    specFormatOk "22222-22222-22222-22222-22222" = true
    ∧ (((validate_license_signature "22222-22222-22222-22222-22222" 0
            = ValidationResult.invalid "Timestamp in future"
          ∨ validate_license_signature "22222-22222-22222-22222-22222" 0
            = ValidationResult.invalid "License too old")
        ↔ ((candidate_timestamp "22222-22222-22222-22222-22222" : Int)
              > ((0 : Nat) : Int) + 86400
            ∨ (candidate_timestamp "22222-22222-22222-22222-22222" : Int)
              < ((0 : Nat) : Int) - 2 * 365 * 86400))
      ∧ ((((0 : Nat) : Int) - 2 * 365 * 86400
            ≤ (candidate_timestamp "22222-22222-22222-22222-22222" : Int)
          ∧ (candidate_timestamp "22222-22222-22222-22222-22222" : Int)
            ≤ ((0 : Nat) : Int) + 86400)
        → (validate_license_signature "22222-22222-22222-22222-22222" 0
              = ValidationResult.invalid "Invalid signature"
          ∨ ∃ a, validate_license_signature "22222-22222-22222-22222-22222" 0
              = ValidationResult.valid
                  (candidate_timestamp "22222-22222-22222-22222-22222") a))) :=
  ⟨by decide, C6_timestamp_bounds "22222-22222-22222-22222-22222" 0 (by decide)⟩

/-- Claim C8: every generated key consists of five 5-character alphabet
segments joined by dashes (29 characters in all); segments 1-3 encode the
6/5/5-byte chunks of the 16-byte payload, segments 4 and 5 encode
signature bytes 0-4 and 5-9, and the signature's remaining 22 bytes (of
32) are discarded. -/
theorem C8_generated_key_structure (rnd : List Nat) (now : Nat)
    (_hlen : rnd.length = 12) (_hnow : now < 4294967296) :
    ∃ s1 s2 s3 s4 s5 : List Char,
      (generate_license_key rnd now).data
          = s1 ++ '-' :: (s2 ++ '-' :: (s3 ++ '-' :: (s4 ++ '-' :: s5)))
        ∧ SegOk s1 ∧ SegOk s2 ∧ SegOk s3 ∧ SegOk s4 ∧ SegOk s5
        ∧ s1 = encode_to_alphabet ((rnd ++ beBytesFixed 4 now).take 6) 5
        ∧ s2 = encode_to_alphabet (((rnd ++ beBytesFixed 4 now).drop 6).take 5) 5
        ∧ s3 = encode_to_alphabet (((rnd ++ beBytesFixed 4 now).drop 11).take 5) 5
        ∧ s4 = encode_to_alphabet
            ((create_license_signature [s1, s2, s3] now).take 5) 5
        ∧ s5 = encode_to_alphabet
            (((create_license_signature [s1, s2, s3] now).drop 5).take 5) 5
        ∧ (create_license_signature [s1, s2, s3] now).length = 32
        ∧ (generate_license_key rnd now).length = 29 := by
  refine ⟨_, _, _, _, _, rfl, segOk_encode _, segOk_encode _, segOk_encode _,
    segOk_encode _, segOk_encode _, rfl, rfl, rfl, rfl, rfl,
    sha256_length _, ?_⟩
  show (generate_license_key rnd now).data.length = 29
  simp only [generate_license_key, joinChar_five]
  simp [List.length_append, encode_to_alphabet_length]

/-- Witness for C8 at a concrete random payload and clock value. -/
theorem C8_generated_key_structure_witness :
    (List.replicate 12 0).length = 12 ∧ 0 < 4294967296
      ∧ (∃ s1 s2 s3 s4 s5 : List Char,
          (generate_license_key (List.replicate 12 0) 0).data
              = s1 ++ '-' :: (s2 ++ '-' :: (s3 ++ '-' :: (s4 ++ '-' :: s5)))
            ∧ SegOk s1 ∧ SegOk s2 ∧ SegOk s3 ∧ SegOk s4 ∧ SegOk s5
            ∧ s1 = encode_to_alphabet
                ((List.replicate 12 0 ++ beBytesFixed 4 0).take 6) 5
            ∧ s2 = encode_to_alphabet
                (((List.replicate 12 0 ++ beBytesFixed 4 0).drop 6).take 5) 5
            ∧ s3 = encode_to_alphabet
                (((List.replicate 12 0 ++ beBytesFixed 4 0).drop 11).take 5) 5
            ∧ s4 = encode_to_alphabet
                ((create_license_signature [s1, s2, s3] 0).take 5) 5
            ∧ s5 = encode_to_alphabet
                (((create_license_signature [s1, s2, s3] 0).drop 5).take 5) 5
            ∧ (create_license_signature [s1, s2, s3] 0).length = 32
            ∧ (generate_license_key (List.replicate 12 0) 0).length = 29) :=
  ⟨by decide, by decide,
    C8_generated_key_structure (List.replicate 12 0) 0 (by decide) (by decide)⟩

/-- Claim C9: the validator is total on attacker-controlled input — for
every input string and current time it returns a tagged result, either
Valid or Invalid carrying one of the known error reasons (raised
exceptions are caught and mapped to the "Validation error" reason). -/
theorem C9_validator_total (key : String) (now : Nat) :
    (∃ t a, validate_license_signature key now = ValidationResult.valid t a)
      ∨ ∃ e, validate_license_signature key now = ValidationResult.invalid e
          ∧ e ∈ ["Invalid format", "Validation error",
              "Invalid timestamp structure", "Timestamp in future",
              "License too old", "Invalid signature"] := by
  by_cases hf : validate_license_format key = true
  · obtain ⟨s1, s2, s3, s4, s5, hk, h1, h2, h3, h4, h5⟩ :=
      (validate_license_format_iff key).mp hf
    rw [validate_eq_segments now hk h1 h2 h3 h4 h5]
    obtain ⟨ps, hps, heq⟩ := validateSegments_eq now h1 h2 h3 h4 h5
    rw [heq]
    split
    · exact Or.inr ⟨"License too old", rfl, by simp⟩
    · split
      · exact Or.inr ⟨"Invalid signature", rfl, by simp⟩
      · exact Or.inl ⟨_, _, rfl⟩
  · rw [Bool.not_eq_true] at hf
    refine Or.inr ⟨"Invalid format", ?_, by simp⟩
    simp [validate_license_signature, hf]

set_option maxRecDepth 100000 in
/-- Claim C7: the fixed test key `AAAAA-BBBBB-CCCCC-DDDDD-EEEEE` (all of
whose characters are in the alphabet, so the format check passes) is
rejected for every current time and the default secrets: the result is
the "License too old" or the "Invalid signature" error, never Valid. -/
theorem C7_known_invalid_key_rejected (now : Nat) :
    validate_license_signature "AAAAA-BBBBB-CCCCC-DDDDD-EEEEE" now
        = ValidationResult.invalid "License too old"
      ∨ validate_license_signature "AAAAA-BBBBB-CCCCC-DDDDD-EEEEE" now
        = ValidationResult.invalid "Invalid signature" := by
  have h1 : SegOk ['A', 'A', 'A', 'A', 'A'] := ⟨rfl, by decide⟩
  have h2 : SegOk ['B', 'B', 'B', 'B', 'B'] := ⟨rfl, by decide⟩
  have h3 : SegOk ['C', 'C', 'C', 'C', 'C'] := ⟨rfl, by decide⟩
  have h4 : SegOk ['D', 'D', 'D', 'D', 'D'] := ⟨rfl, by decide⟩
  have h5 : SegOk ['E', 'E', 'E', 'E', 'E'] := ⟨rfl, by decide⟩
  have hk : ("AAAAA-BBBBB-CCCCC-DDDDD-EEEEE" : String).data
      = ['A', 'A', 'A', 'A', 'A'] ++ '-' :: (['B', 'B', 'B', 'B', 'B']
        ++ '-' :: (['C', 'C', 'C', 'C', 'C'] ++ '-' ::
        (['D', 'D', 'D', 'D', 'D'] ++ '-' ::
        ['E', 'E', 'E', 'E', 'E']))) := rfl
  rw [validate_eq_segments now hk h1 h2 h3 h4 h5]
  obtain ⟨ps, hps, heq⟩ := validateSegments_eq now h1 h2 h3 h4 h5
  rw [heq]
  by_cases hold : (0 : Int) < (now : Int) - 365 * 86400 * 2
  · rw [if_pos hold]
    left
    rfl
  · rw [if_neg hold]
    have hdec : (decode2 ['D', 'D', 'D', 'D', 'D'] ['E', 'E', 'E', 'E', 'E']).map
        (fun x => (create_license_signature
          [['A', 'A', 'A', 'A', 'A'], ['B', 'B', 'B', 'B', 'B'],
           ['C', 'C', 'C', 'C', 'C']] 0).take 10 == (pad10 x).take 10)
        = some false := by decide
    rw [hps] at hdec
    simp at hdec
    rw [if_pos hdec]
    right
    rfl

/-! ### Sanity anchors: the SHA-256 / HMAC model matches the published
test vectors (FIPS 180-2 examples and RFC 4231 test case 2). -/

set_option maxRecDepth 100000 in
theorem sha256_empty_vector :
    sha256 [] = [227, 176, 196, 66, 152, 252, 28, 20,
      154, 251, 244, 200, 153, 111, 185, 36,
      39, 174, 65, 228, 100, 155, 147, 76,
      164, 149, 153, 27, 120, 82, 184, 85] := by decide

set_option maxRecDepth 100000 in
theorem sha256_abc_vector :
    sha256 (strBytes "abc") = [186, 120, 22, 191, 143, 1, 207, 234,
      65, 65, 64, 222, 93, 174, 34, 35,
      176, 3, 97, 163, 150, 23, 122, 156,
      180, 16, 255, 97, 242, 0, 21, 173] := by decide

set_option maxRecDepth 100000 in
theorem hmac_sha256_rfc4231_tc2 :
    hmacSha256 (strBytes "Jefe") (strBytes "what do ya want for nothing?")
      = [91, 220, 193, 70, 191, 96, 117, 78,
         106, 4, 36, 38, 8, 149, 117, 199,
         90, 0, 63, 8, 157, 39, 57, 131,
         157, 236, 88, 185, 100, 236, 56, 67] := by decide

end Yume
